import Mathlib

/-!
Verification of the observable state-container framework in
`src/libs/store` (base.ts, types.ts, hooks.ts) of the Next-blog repository.

The embedding works at three observation granularities, matching what the
individual properties talk about:

- an address world (`Obj`, `Store`): JavaScript objects are modelled as a
  numeric identity `oid` (the reference) plus an association list of fields
  whose values are themselves addresses (`Nat`).  Reference equality
  (`===` / `Object.is`) is equality of `oid`; a fresh object literal or
  `Object.assign({}, ...)` allocates a fresh `oid` from a monotone counter.
  This world carries the zustand container core, the StoreHelper methods and
  the `useHistoryState` hook, whose contracts are all about references.
- a value world (`JVal`): JSON-like trees for the `deepmerge`-based
  `deepMergeState`, whose contract is about the merged values.
- a hybrid-state world (`HybridState`): the typed record wrapped by
  `createHybridStore`, with the commits of `wrapAsyncOperation` modelled as
  an explicit trace of setState payloads (one payload = one commit = one
  subscriber notification, since each payload is a fresh object literal).
-/

namespace NextBlogStore

/-- A JavaScript object: a reference identity `oid` plus named fields whose
values are addresses.  Two objects are the same reference iff their `oid`
coincide (the allocator below never reuses identities). -/
structure Obj where
  oid : Nat
  fields : List (String × Nat)
deriving DecidableEq, Repr

/-- Field read `fs[k]`: first matching entry wins; a missing key is
JavaScript `undefined`, modelled as `none`. -/
def fieldsGet (fs : List (String × Nat)) (k : String) : Option Nat :=
  (fs.find? (fun e => e.1 == k)).map (fun e => e.2)

/-- Property read `o[k]`. -/
def jsGet (o : Obj) (k : String) : Option Nat :=
  fieldsGet o.fields k

/-- Field list of `Object.assign({}, base, upd)`.  Since `fieldsGet` takes the
first matching entry, prepending the update models the update winning over
the base for every key while the base's other keys are retained. -/
def assignFields (base upd : List (String × Nat)) : List (String × Nat) :=
  upd ++ base

/-- The zustand vanilla store cell: the current state reference plus the
fresh-address allocator used to model object allocation. -/
structure Store where
  state : Obj
  nextId : Nat
deriving DecidableEq, Repr

/-- zustand `setState(partial, replace)` (vanilla store, as used by
`base.ts`): when `Object.is(nextState, state)` nothing happens and nobody is
notified; otherwise the stored reference becomes `nextState` itself when
`replace` is set, and a fresh `Object.assign({}, state, nextState)` object
otherwise, and every subscriber is called once with
`(newState, previousState)`.  The returned list is that notification
fan-out. -/
def zSetState (st : Store) (p : Obj) (replace : Bool) : Store × List (Obj × Obj) :=
  if p.oid = st.state.oid then (st, [])
  else if replace then
    ({ state := p, nextId := st.nextId }, [(p, st.state)])
  else
    let newState : Obj := { oid := st.nextId, fields := assignFields st.state.fields p.fields }
    ({ state := newState, nextId := st.nextId + 1 }, [(newState, st.state)])

namespace StoreHelper

/-- Model of `StoreHelper.setState` (base.ts 164-166): delegates to `store.setState`
with the shallow-merge (non-replace) behaviour. -/
def setState (st : Store) (p : Obj) : Store × List (Obj × Obj) :=
  zSetState st p false

/-- Model of `StoreHelper.replaceState` (base.ts 171-173): `store.setState(state, true)`. -/
def replaceState (st : Store) (s : Obj) : Store × List (Obj × Obj) :=
  zSetState st s true

end StoreHelper

namespace StoreHelper

/-- The `wrappedCallback` installed by `StoreHelper.subscribeTo(key, callback)`
(base.ts 231-235): on a raw notification `(state, previousState)` it calls
the user callback with `(state[key], previousState[key])` exactly when
`state[key] !== previousState[key]`; the returned option is that call. -/
def subscribeToFilter (key : String) (state previousState : Obj) :
    Option (Option Nat × Option Nat) :=
  if jsGet state key ≠ jsGet previousState key then
    some (jsGet state key, jsGet previousState key)
  else none

/-- Model of `deepMergeState` (base.ts 34-36) when `typeof partial` is a function: the
updater is never invoked and a fresh shallow copy of the current state is
returned (a new object literal spreading the current fields). -/
def deepMergeStateFnBranch (f : Obj → Obj) (current : Obj) (alloc : Nat) : Obj :=
  { oid := alloc, fields := current.fields }

/-- Model of `StoreHelper.mergeState(updater, strategy deep)` (base.ts 183-185) with a
function-valued updater: compute `deepMergeState(current, updater)` (which
allocates the shallow copy) and commit it through `setState`. -/
def mergeStateDeepFn (f : Obj → Obj) (st : Store) : Store × List (Obj × Obj) :=
  let merged := deepMergeStateFnBranch f st.state st.nextId
  zSetState { st with nextId := st.nextId + 1 } merged false

/-- Model of `StoreHelper.mergeState(updater, strategy replace)` (base.ts 187-190) with
a function-valued updater: build the draft as a fresh shallow copy of the
current state, let the updater mutate the draft fields in place (modelled as
a function on the field list, which may drop keys), then commit the draft
through `setState` (the shallow-merge path, not `replaceState`). -/
def mergeStateReplaceFn (f : List (String × Nat) → List (String × Nat)) (st : Store) :
    Store × List (Obj × Obj) :=
  let draft : Obj := { oid := st.nextId, fields := f st.state.fields }
  zSetState { st with nextId := st.nextId + 1 } draft false

/-- Model of `StoreHelper.mergeState(p, strategy replace)` (base.ts 191-193) with a
non-function value: `replaceState(p)`, i.e. `store.setState(p, true)`. -/
def mergeStateReplaceObj (st : Store) (p : Obj) : Store × List (Obj × Obj) :=
  zSetState st p true

/-- The immediate invocations performed by `StoreHelper.subscribe`
(base.ts 212-218) at subscription time: one call with the current state as
both arguments when `fireImmediately` is set, none otherwise. -/
def subscribeImmediate (st : Store) (fireImmediately : Bool) : List (Obj × Obj) :=
  if fireImmediately then [(st.state, st.state)] else []

/-- The immediate invocations performed by `StoreHelper.subscribeTo`
(base.ts 237-240): one call with the current field value as both arguments
when `fireImmediately` is set, none otherwise. -/
def subscribeToImmediate (st : Store) (k : String) (fireImmediately : Bool) :
    List (Option Nat × Option Nat) :=
  if fireImmediately then [(jsGet st.state k, jsGet st.state k)] else []

/-- All invocations a `subscribe(cb, fireImmediately)` subscriber observes
when the subscription is followed by one mutation: the immediate calls,
then the mutation's notification fan-out. -/
def subscribeThenMutate (st : Store) (fire : Bool) (p : Obj) : List (Obj × Obj) :=
  subscribeImmediate st fire ++ (zSetState st p false).2

end StoreHelper

theorem fieldsGet_append (a b : List (String × Nat)) (k : String) :
    fieldsGet (a ++ b) k = (fieldsGet a k).or (fieldsGet b k) := by
  unfold fieldsGet
  rw [List.find?_append]
  cases a.find? (fun e => e.1 == k) <;> simp

theorem fieldsGet_self_append (a : List (String × Nat)) (k : String) :
    fieldsGet (a ++ a) k = fieldsGet a k := by
  rw [fieldsGet_append]
  cases fieldsGet a k <;> rfl

/-- Demo objects used to instantiate the theorems with hypotheses. -/
def demoPrev : Obj := { oid := 0, fields := [("count", 10), ("other", 20)] }

def demoNext : Obj := { oid := 1, fields := [("count", 11), ("other", 20)] }

def demoStoreAB : Store := { state := { oid := 0, fields := [("a", 1), ("b", 2)] }, nextId := 1 }

def demoDeleteB : List (String × Nat) → List (String × Nat) := fun _ => [("a", 5)]

def demoReplacement : Obj := { oid := 7, fields := [("a", 9)] }

/-- C6: calling `StoreHelper.setState` with the object that is already the
current state (reference-identical) performs no commit: the stored state
reference is unchanged and the subscriber notification list is empty. -/
theorem setState_reference_identical_noop (st : Store) :
    StoreHelper.setState st st.state = (st, []) := by
  simp [StoreHelper.setState, zSetState]

/-- C7: the field watcher registered by `subscribeTo(k, cb)` fires on a raw
notification exactly when the new and previous values of field `k` differ
under reference inequality, and when it fires it passes the new and previous
field values, in that order. -/
theorem subscribeTo_fires_iff_field_changed :
    (∀ (k : String) (s ps : Obj),
        (StoreHelper.subscribeToFilter k s ps).isSome ↔ jsGet s k ≠ jsGet ps k) ∧
    (∀ (k : String) (s ps : Obj) (v pv : Option Nat),
        StoreHelper.subscribeToFilter k s ps = some (v, pv) →
          v = jsGet s k ∧ pv = jsGet ps k) := by
  constructor
  · intro k s ps
    unfold StoreHelper.subscribeToFilter
    split <;> simp_all
  · intro k s ps v pv h
    unfold StoreHelper.subscribeToFilter at h
    split at h <;> simp_all

/-- C7 witness: on the concrete notification where `count` went from address
10 to address 11, the watcher fires and receives exactly those values. -/
theorem subscribeTo_fires_iff_field_changed_witness :
    some 11 = jsGet demoNext "count" ∧ some 10 = jsGet demoPrev "count" :=
  subscribeTo_fires_iff_field_changed.2 "count" demoNext demoPrev
    (some 11) (some 10) (by decide)

/-- C8: `mergeState` with a function updater under the deep strategy drops
the updater entirely (the result does not depend on it), yet commits: the
subscribers receive exactly one notification, the committed state is a new
reference, and every field keeps its previous value. -/
theorem mergeState_deep_function_updater_dropped (f : Obj → Obj) (st : Store)
    (h : st.state.oid < st.nextId) :
    (∀ g : Obj → Obj, StoreHelper.mergeStateDeepFn g st = StoreHelper.mergeStateDeepFn f st) ∧
    (StoreHelper.mergeStateDeepFn f st).2.length = 1 ∧
    (StoreHelper.mergeStateDeepFn f st).1.state.oid ≠ st.state.oid ∧
    (∀ k, jsGet (StoreHelper.mergeStateDeepFn f st).1.state k = jsGet st.state k) := by
  have hne : ¬ st.nextId = st.state.oid := by omega
  refine ⟨fun g => rfl, ?_, ?_, ?_⟩
  · simp [StoreHelper.mergeStateDeepFn, StoreHelper.deepMergeStateFnBranch, zSetState, hne]
  · simp only [StoreHelper.mergeStateDeepFn, StoreHelper.deepMergeStateFnBranch, zSetState]
    simp [hne]
    omega
  · intro k
    simp [StoreHelper.mergeStateDeepFn, StoreHelper.deepMergeStateFnBranch, zSetState, hne,
      jsGet, assignFields, fieldsGet_self_append]

/-- C8 witness: on a concrete two-field store the deep-strategy function
merge commits exactly one notification carrying a fresh reference. -/
theorem mergeState_deep_function_updater_dropped_witness :
    (StoreHelper.mergeStateDeepFn (fun o => o) demoStoreAB).2.length = 1 ∧
    (StoreHelper.mergeStateDeepFn (fun o => o) demoStoreAB).1.state.oid ≠ demoStoreAB.state.oid :=
  ⟨(mergeState_deep_function_updater_dropped (fun o => o) demoStoreAB (by decide)).2.1,
   (mergeState_deep_function_updater_dropped (fun o => o) demoStoreAB (by decide)).2.2.1⟩

/-- C9: under the replace strategy a function updater is committed through
the shallow-merge `setState` path, so the resulting state reads each field
from the mutated draft first and falls back to the previous state (a key the
updater deleted keeps its old value), and the commit is a fresh reference;
a non-function value instead replaces the whole state wholesale (the stored
reference becomes exactly that value, absent keys gone). -/
theorem mergeState_replace_function_vs_object
    (f : List (String × Nat) → List (String × Nat)) (st : Store) (p : Obj)
    (h : st.state.oid < st.nextId) (hp : p.oid ≠ st.state.oid) :
    (∀ k, jsGet (StoreHelper.mergeStateReplaceFn f st).1.state k
        = (fieldsGet (f st.state.fields) k).or (jsGet st.state k)) ∧
    (∀ k, fieldsGet (f st.state.fields) k = none →
        jsGet (StoreHelper.mergeStateReplaceFn f st).1.state k = jsGet st.state k) ∧
    (StoreHelper.mergeStateReplaceFn f st).1.state.oid ≠ st.state.oid ∧
    (StoreHelper.mergeStateReplaceObj st p).1.state = p := by
  have hne : ¬ st.nextId = st.state.oid := by omega
  have hmain : ∀ k, jsGet (StoreHelper.mergeStateReplaceFn f st).1.state k
      = (fieldsGet (f st.state.fields) k).or (jsGet st.state k) := by
    intro k
    simp [StoreHelper.mergeStateReplaceFn, zSetState, hne, jsGet, assignFields, fieldsGet_append]
  refine ⟨hmain, ?_, ?_, ?_⟩
  · intro k hk
    rw [hmain k, hk]
    cases jsGet st.state k <;> rfl
  · simp only [StoreHelper.mergeStateReplaceFn, zSetState]
    simp [hne]
    omega
  · simp [StoreHelper.mergeStateReplaceObj, zSetState, hp]

/-- C9 witness: deleting key b from the draft keeps the old value of b in
the committed state, while a wholesale object replacement installs exactly
the given object. -/
theorem mergeState_replace_function_vs_object_witness :
    jsGet (StoreHelper.mergeStateReplaceFn demoDeleteB demoStoreAB).1.state "b" = some 2 ∧
    (StoreHelper.mergeStateReplaceObj demoStoreAB demoReplacement).1.state = demoReplacement := by
  have h := mergeState_replace_function_vs_object demoDeleteB demoStoreAB demoReplacement
    (by decide) (by decide)
  exact ⟨by rw [h.2.1 "b" (by decide)]; decide, h.2.2.2⟩

/-- C10: with `fireImmediately` set, `subscribe` invokes the callback exactly
once at subscription time, with the current state as both the new and the
previous argument, ahead of any mutation notifications; `subscribeTo` does
the same with the current field value; without the flag there is no
immediate invocation. -/
theorem subscribe_fireImmediately_once (st : Store) (k : String) (p : Obj) :
    StoreHelper.subscribeThenMutate st true p
      = (st.state, st.state) :: (zSetState st p false).2 ∧
    StoreHelper.subscribeThenMutate st false p = (zSetState st p false).2 ∧
    StoreHelper.subscribeImmediate st true = [(st.state, st.state)] ∧
    StoreHelper.subscribeImmediate st false = [] ∧
    StoreHelper.subscribeToImmediate st k true = [(jsGet st.state k, jsGet st.state k)] ∧
    StoreHelper.subscribeToImmediate st k false = [] := by
  refine ⟨?_, ?_, rfl, rfl, rfl, rfl⟩ <;>
    simp [StoreHelper.subscribeThenMutate, StoreHelper.subscribeImmediate]

/-! ### Hybrid async wrapper (`createHybridStore` / `wrapAsyncOperation`) -/

/-- A JavaScript Error object, identified by its message. -/
structure JErr where
  message : String
deriving DecidableEq, Repr

/-- A value thrown by an async operation: either an Error instance or some
other throwable, identified by its `String(value)` rendering. -/
inductive Thrown where
  | errObj (e : JErr)
  | other (s : String)
deriving DecidableEq, Repr

/-- The normalization in the catch block of `wrapAsyncOperation`
(base.ts 365): `error instanceof Error ? error : new Error(String(error))`. -/
def normalizeThrown : Thrown → JErr
  | .errObj e => e
  | .other s => { message := s }

/-- The state held by a hybrid store (types.ts `HybridState`): the wrapped
data (an opaque reference), the loading flag, the error slot and the
last-update timestamp. -/
structure HybridState where
  data : Nat
  isLoading : Bool
  error : Option JErr
  lastUpdate : Nat
deriving DecidableEq, Repr

/-- One `store.setState(...)` payload of the wrapper: the fields present in
the object literal.  Each payload is a fresh object literal, so each one is
one commit and one subscriber notification. -/
structure HybridPatch where
  pIsLoading : Option Bool
  pError : Option (Option JErr)
  pLastUpdate : Option Nat
  pData : Option Nat
deriving DecidableEq, Repr

/-- Shallow merge of a payload into the hybrid state (zustand `setState`). -/
def applyHybridPatch (s : HybridState) (p : HybridPatch) : HybridState :=
  { data := p.pData.getD s.data,
    isLoading := p.pIsLoading.getD s.isLoading,
    error := p.pError.getD s.error,
    lastUpdate := p.pLastUpdate.getD s.lastUpdate }

/-- The options record of `wrapAsyncOperation` (base.ts 350); the default is
`setLoading = true, setError = true`. -/
structure AsyncOptions where
  setLoading : Bool
  setError : Bool
deriving DecidableEq, Repr

def defaultAsyncOptions : AsyncOptions := { setLoading := true, setError := true }

/-- The payload of the pending commit (base.ts 353):
`_isLoading = true, _error = null`. -/
def pendingPatch : HybridPatch :=
  { pIsLoading := some true, pError := some none, pLastUpdate := none, pData := none }

/-- The payload of the success commit (base.ts 358-362):
`_isLoading = false, _error = null, _lastUpdate = now`; note that `data` is
not among the written fields. -/
def successPatch (now : Nat) : HybridPatch :=
  { pIsLoading := some false, pError := some none, pLastUpdate := some now, pData := none }

/-- The payload of the failure commit (base.ts 367-371):
`_isLoading = false, _error = errorObj, _lastUpdate = now`. -/
def failurePatch (e : JErr) (now : Nat) : HybridPatch :=
  { pIsLoading := some false, pError := some (some e), pLastUpdate := some now, pData := none }

/-- Trace semantics of `wrapAsyncOperation` (base.ts 347-375).  The awaited
operation is its settled outcome (`Except.ok` a result or `Except.error` a
thrown value); `now` is the clock value at settling time.  Returned are the
list of commits in order, the resulting hybrid state, and what the wrapper
itself returns or re-throws.  The commits before the re-throw are exactly
the ones listed, so a failure is in the state before the caller sees the
exception. -/
def wrapAsyncOperation {R : Type} (s0 : HybridState) (op : Except Thrown R)
    (options : AsyncOptions) (now : Nat) :
    List HybridPatch × HybridState × Except JErr R :=
  let pend : List HybridPatch := if options.setLoading then [pendingPatch] else []
  let s1 : HybridState := if options.setLoading then applyHybridPatch s0 pendingPatch else s0
  match op with
  | .ok r => (pend ++ [successPatch now], applyHybridPatch s1 (successPatch now), .ok r)
  | .error e =>
      let errObj := normalizeThrown e
      if options.setError then
        (pend ++ [failurePatch errObj now], applyHybridPatch s1 (failurePatch errObj now),
          .error errObj)
      else (pend, s1, .error errObj)

/-- C2: when the operation rejects, the wrapper with default options issues
exactly one commit for the failure (so exactly one notification beyond the
initial pending commit), and that single commit carries both
isLoading = false and the normalized Error; the resulting state already
shows the failure when the error is re-thrown, the re-thrown value is the
normalized Error, and a non-Error throwable is wrapped into an Error. -/
theorem wrapAsyncOperation_failure_atomic (R : Type) (s0 : HybridState) (e : Thrown) (now : Nat) :
    (wrapAsyncOperation (R := R) s0 (.error e) defaultAsyncOptions now).1
      = [pendingPatch, failurePatch (normalizeThrown e) now] ∧
    (failurePatch (normalizeThrown e) now).pIsLoading = some false ∧
    (failurePatch (normalizeThrown e) now).pError = some (some (normalizeThrown e)) ∧
    (wrapAsyncOperation (R := R) s0 (.error e) defaultAsyncOptions now).2.1.isLoading = false ∧
    (wrapAsyncOperation (R := R) s0 (.error e) defaultAsyncOptions now).2.1.error
      = some (normalizeThrown e) ∧
    (wrapAsyncOperation (R := R) s0 (.error e) defaultAsyncOptions now).2.2
      = Except.error (normalizeThrown e) ∧
    (∀ m : String, normalizeThrown (.other m) = { message := m }) := by
  refine ⟨rfl, rfl, rfl, ?_, ?_, rfl, fun m => rfl⟩ <;>
    simp [wrapAsyncOperation, defaultAsyncOptions, applyHybridPatch, failurePatch, pendingPatch]

/-- Concrete hybrid state used to exhibit the success-commit behaviour. -/
def demoHybrid : HybridState :=
  { data := 5, isLoading := true, error := some { message := "old" }, lastUpdate := 0 }

/-- C3 counterexample: for a resolving operation the success commit does not
write `data`.  With current data 5 and result 7 the final data is still 5,
not the claimed merged result 7, even though the wrapper returns 7. -/
theorem wrapAsyncOperation_success_data_not_merged :
    (wrapAsyncOperation (R := Nat) demoHybrid (.ok 7) defaultAsyncOptions 99).2.1.data = 5 ∧
    ¬ (wrapAsyncOperation (R := Nat) demoHybrid (.ok 7) defaultAsyncOptions 99).2.1.data = 7 ∧
    (wrapAsyncOperation (R := Nat) demoHybrid (.ok 7) defaultAsyncOptions 99).2.2
      = Except.ok 7 := by
  refine ⟨rfl, by decide, rfl⟩

/-- C3 (amended): for a resolving operation with default options the settle
commit sets isLoading to false, error to null and lastUpdate to the current
time, leaves `data` untouched (the result is handed back to the caller, not
merged into the state), and the wrapper resolves with the result. -/
theorem wrapAsyncOperation_success_commit (R : Type) (s0 : HybridState) (r : R) (now : Nat) :
    (wrapAsyncOperation (R := R) s0 (.ok r) defaultAsyncOptions now).1
      = [pendingPatch, successPatch now] ∧
    (wrapAsyncOperation (R := R) s0 (.ok r) defaultAsyncOptions now).2.1
      = { data := s0.data, isLoading := false, error := none, lastUpdate := now } ∧
    (successPatch now).pData = none ∧
    (wrapAsyncOperation (R := R) s0 (.ok r) defaultAsyncOptions now).2.2 = Except.ok r := by
  refine ⟨rfl, ?_, rfl, rfl⟩
  simp [wrapAsyncOperation, defaultAsyncOptions, applyHybridPatch, successPatch, pendingPatch]

/-! ### History tracker (`useHistoryState`, hooks.ts 389-438)

The hook keeps a mutable record of past states, the present state and
future states, installs a subscriber on the store that reacts to every
commit, and exposes undo and redo which themselves commit through
`store.setState`.  Because that commit is observed by the hook's own
subscriber, undo and redo feed back into the history record; the model
below reproduces this faithfully. -/

/-- The mutable `historyRef` of the hook. -/
structure History where
  past : List Obj
  present : Obj
  future : List Obj
deriving DecidableEq, Repr

/-- JavaScript `arr.slice(-n)`.  For `n = 0` the argument is `-0 === 0`, so
the call is `slice(0)` and returns the whole array; for positive `n` it
keeps the last `n` elements. -/
def jsSliceLast {α : Type} (n : Nat) (l : List α) : List α :=
  if n = 0 then l else l.drop (l.length - n)

/-- JavaScript `arr.pop()`: the array without its last element, and the
removed element (`none` on an empty array). -/
def jsPop {α : Type} (l : List α) : List α × Option α :=
  (l.dropLast, l.getLast?)

/-- The subscriber installed by `useHistoryState` (hooks.ts 397-404): on a
notification where the references differ, push the previous state onto
`past` bounded by `slice(-maxSize)`, set `present`, and clear `future`. -/
def histOnNotify (maxSize : Nat) (h : History) (state previousState : Obj) : History :=
  if state.oid ≠ previousState.oid then
    { past := jsSliceLast maxSize (h.past ++ [previousState]),
      present := state,
      future := [] }
  else h

/-- Feed a commit's notification fan-out through the hook's subscriber. -/
def notifyAll (maxSize : Nat) (h : History) (ns : List (Obj × Obj)) : History :=
  ns.foldl (fun acc n => histOnNotify maxSize acc n.1 n.2) h

/-- The store together with the hook's history record. -/
structure HSys where
  store : Store
  hist : History
deriving DecidableEq, Repr

/-- State of the hook right after `useHistoryState(store, maxSize)` mounts:
empty past and future, present is the store's current state. -/
def hInit (st : Store) : HSys :=
  { store := st, hist := { past := [], present := st.state, future := [] } }

/-- An external forward mutation `store.setState(p)` while the hook's
subscriber is active. -/
def hMutate (maxSize : Nat) (s : HSys) (p : Obj) : HSys :=
  let r := zSetState s.store p false
  { store := r.1, hist := notifyAll maxSize s.hist r.2 }

/-- Model of `undo()` (hooks.ts 409-417): pop `past`; if an element came off, push
`present` onto `future`, commit the popped state through `store.setState`
(which synchronously runs the hook's subscriber) and return true; on an
empty `past` return false. -/
def hUndo (maxSize : Nat) (s : HSys) : HSys × Bool :=
  match (jsPop s.hist.past).2 with
  | some previous =>
      let h1 : History :=
        { past := (jsPop s.hist.past).1,
          present := s.hist.present,
          future := s.hist.future ++ [s.hist.present] }
      let r := zSetState s.store previous false
      ({ store := r.1, hist := notifyAll maxSize h1 r.2 }, true)
  | none => (s, false)

/-- Model of `redo()` (hooks.ts 419-427): symmetric to `undo`, popping `future` and
pushing `present` onto `past` (unbounded) before the commit. -/
def hRedo (maxSize : Nat) (s : HSys) : HSys × Bool :=
  match (jsPop s.hist.future).2 with
  | some next =>
      let h1 : History :=
        { past := s.hist.past ++ [s.hist.present],
          present := s.hist.present,
          future := (jsPop s.hist.future).1 }
      let r := zSetState s.store next false
      ({ store := r.1, hist := notifyAll maxSize h1 r.2 }, true)
  | none => (s, false)

/-- Model of `canUndo()` (hooks.ts 429). -/
def canUndo (s : HSys) : Bool := decide (0 < s.hist.past.length)

/-- Model of `canRedo()` (hooks.ts 430). -/
def canRedo (s : HSys) : Bool := decide (0 < s.hist.future.length)

/-- The operations an external caller can perform on the tracked system. -/
inductive HOp where
  | mutate (p : Obj)
  | undo
  | redo

def hStep (maxSize : Nat) (s : HSys) : HOp → HSys
  | .mutate p => hMutate maxSize s p
  | .undo => (hUndo maxSize s).1
  | .redo => (hRedo maxSize s).1

def hRun (maxSize : Nat) (s : HSys) (ops : List HOp) : HSys :=
  ops.foldl (hStep maxSize) s

/-- Inductive well-formedness of the tracked system: present mirrors the
store, future is empty at every operation boundary (the hook's own
subscriber clears it during undo and redo), the allocator is ahead of the
current state, past holds only strictly older references, and past is
bounded. -/
def HistWF (maxSize : Nat) (s : HSys) : Prop :=
  s.hist.present = s.store.state ∧
  s.hist.future = [] ∧
  s.store.state.oid < s.store.nextId ∧
  (∀ o ∈ s.hist.past, o.oid < s.store.state.oid) ∧
  s.hist.past.length ≤ maxSize

theorem length_jsSliceLast_le {α : Type} (n : Nat) (l : List α) (hn : 1 ≤ n) :
    (jsSliceLast n l).length ≤ n := by
  unfold jsSliceLast
  rw [if_neg (by omega)]
  rw [List.length_drop]
  omega

theorem mem_of_mem_jsSliceLast {α : Type} {n : Nat} {l : List α} {a : α}
    (h : a ∈ jsSliceLast n l) : a ∈ l := by
  unfold jsSliceLast at h
  split at h
  · exact h
  · exact List.drop_subset _ l h

theorem histWF_init (maxSize : Nat) (store : Store) (h0 : store.state.oid < store.nextId) :
    HistWF maxSize (hInit store) :=
  ⟨rfl, rfl, h0, by simp [hInit], by simp [hInit]⟩

theorem zSetState_skip (st : Store) (p : Obj) (hc : p.oid = st.state.oid) :
    zSetState st p false = (st, []) := by
  simp [zSetState, hc]

theorem zSetState_commit (st : Store) (p : Obj) (hc : ¬ p.oid = st.state.oid) :
    zSetState st p false =
      ({ state := { oid := st.nextId, fields := assignFields st.state.fields p.fields },
         nextId := st.nextId + 1 },
       [({ oid := st.nextId, fields := assignFields st.state.fields p.fields }, st.state)]) := by
  simp [zSetState, hc]

theorem hMutate_commit (N : Nat) (s : HSys) (p : Obj)
    (hc : ¬ p.oid = s.store.state.oid) (hlt : s.store.state.oid < s.store.nextId) :
    hMutate N s p =
      { store := { state := { oid := s.store.nextId,
                              fields := assignFields s.store.state.fields p.fields },
                   nextId := s.store.nextId + 1 },
        hist := { past := jsSliceLast N (s.hist.past ++ [s.store.state]),
                  present := { oid := s.store.nextId,
                               fields := assignFields s.store.state.fields p.fields },
                  future := [] } } := by
  have hne : s.store.nextId ≠ s.store.state.oid := by omega
  unfold hMutate
  rw [zSetState_commit s.store p hc]
  simp [notifyAll, histOnNotify, hne]

theorem hUndo_none (N : Nat) (s : HSys) (hp : s.hist.past.getLast? = none) :
    hUndo N s = (s, false) := by
  simp [hUndo, jsPop, hp]

theorem hUndo_some (N : Nat) (s : HSys) (previous : Obj)
    (hp : s.hist.past.getLast? = some previous)
    (hne : ¬ previous.oid = s.store.state.oid) (hlt : s.store.state.oid < s.store.nextId) :
    hUndo N s =
      ({ store := { state := { oid := s.store.nextId,
                               fields := assignFields s.store.state.fields previous.fields },
                    nextId := s.store.nextId + 1 },
         hist := { past := jsSliceLast N (s.hist.past.dropLast ++ [s.store.state]),
                   present := { oid := s.store.nextId,
                                fields := assignFields s.store.state.fields previous.fields },
                   future := [] } }, true) := by
  have hne2 : s.store.nextId ≠ s.store.state.oid := by omega
  unfold hUndo
  simp only [jsPop, hp]
  rw [zSetState_commit s.store previous hne]
  simp [notifyAll, histOnNotify, hne2]

theorem hRedo_none (N : Nat) (s : HSys) (hp : s.hist.future.getLast? = none) :
    hRedo N s = (s, false) := by
  simp [hRedo, jsPop, hp]

theorem histWF_mutate (N : Nat) (s : HSys) (p : Obj) (hN : 1 ≤ N) (h : HistWF N s) :
    HistWF N (hMutate N s p) := by
  obtain ⟨hpres, hfut, hlt, hpast, hlen⟩ := h
  by_cases hc : p.oid = s.store.state.oid
  · unfold hMutate
    rw [zSetState_skip s.store p hc]
    exact ⟨hpres, hfut, hlt, hpast, hlen⟩
  · rw [hMutate_commit N s p hc hlt]
    refine ⟨rfl, rfl, by simp, ?_, length_jsSliceLast_le N _ hN⟩
    intro o ho
    rcases List.mem_append.1 (mem_of_mem_jsSliceLast ho) with h1 | h2
    · have := hpast o h1
      simp only
      omega
    · simp only [List.mem_singleton.1 h2]
      omega

theorem histWF_undo (N : Nat) (s : HSys) (hN : 1 ≤ N) (h : HistWF N s) :
    HistWF N (hUndo N s).1 := by
  obtain ⟨hpres, hfut, hlt, hpast, hlen⟩ := h
  cases hp : s.hist.past.getLast? with
  | none =>
      rw [hUndo_none N s hp]
      exact ⟨hpres, hfut, hlt, hpast, hlen⟩
  | some previous =>
      have hdp : s.hist.past.dropLast ++ [previous] = s.hist.past :=
        List.dropLast_append_getLast? previous hp
      have hmem : previous ∈ s.hist.past := by
        rw [← hdp]
        exact List.mem_append_right _ (List.mem_singleton.2 rfl)
      have hpo : previous.oid < s.store.state.oid := hpast previous hmem
      have hne : ¬ previous.oid = s.store.state.oid := by omega
      rw [hUndo_some N s previous hp hne hlt]
      refine ⟨rfl, rfl, by simp, ?_, length_jsSliceLast_le N _ hN⟩
      intro o ho
      rcases List.mem_append.1 (mem_of_mem_jsSliceLast ho) with h1 | h2
      · have hmem2 : o ∈ s.hist.past := (List.dropLast_sublist _).subset h1
        have := hpast o hmem2
        simp only
        omega
      · simp only [List.mem_singleton.1 h2]
        omega

theorem histWF_redo (N : Nat) (s : HSys) (h : HistWF N s) :
    HistWF N (hRedo N s).1 := by
  obtain ⟨hpres, hfut, hlt, hpast, hlen⟩ := h
  rw [hRedo_none N s (by rw [hfut]; rfl)]
  exact ⟨hpres, hfut, hlt, hpast, hlen⟩

theorem histWF_step (N : Nat) (s : HSys) (op : HOp) (hN : 1 ≤ N) (h : HistWF N s) :
    HistWF N (hStep N s op) := by
  cases op with
  | mutate p => exact histWF_mutate N s p hN h
  | undo => exact histWF_undo N s hN h
  | redo => exact histWF_redo N s h

theorem histWF_run (N : Nat) (s : HSys) (ops : List HOp) (hN : 1 ≤ N) (h : HistWF N s) :
    HistWF N (hRun N s ops) := by
  induction ops generalizing s with
  | nil => exact h
  | cons op rest ih => exact ih _ (histWF_step N s op hN h)

/-- Concrete counter store for the history scenarios: state A is
count = address 100, i.e. the value 0 of the end-to-end scenario. -/
def demoCounter : Store := { state := { oid := 0, fields := [("count", 100)] }, nextId := 1 }

def demoP1 : Obj := { oid := 41, fields := [("count", 101)] }

def demoP2 : Obj := { oid := 42, fields := [("count", 102)] }

def demoP3 : Obj := { oid := 43, fields := [("count", 103)] }

def demoP4 : Obj := { oid := 44, fields := [("count", 104)] }

def demoP5 : Obj := { oid := 45, fields := [("count", 105)] }

def demoFiveMutations : List HOp :=
  [HOp.mutate demoP1, HOp.mutate demoP2, HOp.mutate demoP3, HOp.mutate demoP4, HOp.mutate demoP5]

/-- The store state after the first `k` of the five demo mutations. -/
def demoStateAfter (k : Nat) : Obj :=
  (hRun 3 (hInit demoCounter) (demoFiveMutations.take k)).store.state

/-- The system after mutating the demo counter to B (count 101) and then to
C (count 102), with the default bound 10. -/
def demoT2 : HSys := hRun 10 (hInit demoCounter) [HOp.mutate demoP1, HOp.mutate demoP2]

def demoU1 : HSys × Bool := hUndo 10 demoT2

def demoU2 : HSys × Bool := hUndo 10 demoU1.1

/-- C1 (code bug): on the trace A, mutate to B, mutate to C, the first
`undo()` does return true and the state does become B; but the `setState`
inside `undo` triggers the hook's own subscriber, which pushes the
undone-from state C onto `past` and clears `future`.  Hence `redo()` right
after the first undo returns false and changes nothing, and the second
`undo()` returns true yet lands back on C (count 102) instead of A
(count 100) — the round trip of the specification fails. -/
theorem useHistoryState_undo_selfNotification_divergence :
    jsGet demoT2.store.state "count" = some 102 ∧
    demoU1.2 = true ∧
    jsGet demoU1.1.store.state "count" = some 101 ∧
    demoU1.1.hist.future = [] ∧
    (hRedo 10 demoU1.1).2 = false ∧
    (hRedo 10 demoU1.1).1 = demoU1.1 ∧
    demoU2.2 = true ∧
    jsGet demoU2.1.store.state "count" = some 102 ∧
    ¬ jsGet demoU2.1.store.state "count" = some 100 := by
  decide

/-- C4 counterexample: with `maxSize = 0`, `slice(-0)` is `slice(0)` and
keeps the whole array, so a single mutation already leaves
`past.length = 1 > 0`: the bound fails for `N = 0`. -/
theorem historyBound_fails_at_maxSize_zero :
    ¬ ((hRun 0 (hInit demoCounter) [HOp.mutate demoP1]).hist.past.length ≤ 0) := by
  decide

/-- C4 (amended to a positive bound): for a tracker created with
`maxSize = N ≥ 1` over a well-formed store, `past.length ≤ N` holds after
every sequence of operations; in particular with `maxSize = 3`, five
sequential forward mutations leave `past.length = 3`, containing exactly
the three most recent predecessor states in order (oldest evicted first). -/
theorem historyBound_maxSize_pos (N : Nat) (store : Store) (ops : List HOp)
    (hN : 1 ≤ N) (h0 : store.state.oid < store.nextId) :
    (hRun N (hInit store) ops).hist.past.length ≤ N ∧
    (hRun 3 (hInit demoCounter) demoFiveMutations).hist.past.length = 3 ∧
    (hRun 3 (hInit demoCounter) demoFiveMutations).hist.past
      = [demoStateAfter 2, demoStateAfter 3, demoStateAfter 4] := by
  refine ⟨(histWF_run N (hInit store) ops hN (histWF_init N store h0)).2.2.2.2, ?_, ?_⟩
  · decide
  · decide

/-- C4 witness: the bound instantiated at `N = 1` on the concrete counter
store with one mutation. -/
theorem historyBound_maxSize_pos_witness :
    (hRun 1 (hInit demoCounter) [HOp.mutate demoP1]).hist.past.length ≤ 1 :=
  (historyBound_maxSize_pos 1 demoCounter [HOp.mutate demoP1] (by decide) (by decide)).1

/-! ### Deep merge (`deepMergeState` on a non-function update, base.ts 27-52)

`deepMergeState` calls the `deepmerge` library with a custom `arrayMerge`
built from the per-call option (default merge-by-index).  The library
merges two values as follows: if exactly one side is an array, the source
is cloned wholesale; two arrays go through `arrayMerge`; two objects are
merged key by key — the destination starts as a copy of the target and each
source key is assigned, recursing when the key exists on the target and the
source value is mergeable (an object or array), otherwise cloning the
source value. -/

/-- The `arrayMerge` option of `DeepMergeOptions` (types.ts 552). -/
inductive ArrayMergePolicy where
  | concat
  | replace
  | mergeByIndex
deriving DecidableEq, Repr

/-- JSON-like values: numbers (standing for any non-mergeable primitive),
arrays and plain objects. -/
inductive JVal where
  | num (n : Nat)
  | arr (elems : List JVal)
  | obj (fields : List (String × JVal))
deriving Repr

/-- The custom `arrayMerge` closure of `deepMergeState` (base.ts 40-48):
`concat` appends the source after the destination, `replace` returns the
source, and the fall-through (merge-by-index, the default) also returns the
source. -/
def customArrayMerge (p : ArrayMergePolicy) (dest src : List JVal) : List JVal :=
  match p with
  | .concat => dest ++ src
  | .replace => src
  | .mergeByIndex => src

/-- Model of `isMergeableObject`: arrays and plain objects are mergeable. -/
def mergeableJ : JVal → Bool
  | .num _ => false
  | _ => true

/-- Object property read, first matching key wins. -/
def lookupJ (fs : List (String × JVal)) (k : String) : Option JVal :=
  (fs.find? (fun e => e.1 == k)).map (fun e => e.2)

/-- JavaScript property assignment on a plain object: an existing key keeps
its position and gets the new value, a new key is appended. -/
def setKeyJ (fs : List (String × JVal)) (k : String) (v : JVal) : List (String × JVal) :=
  if fs.any (fun e => e.1 == k) then fs.map (fun e => if e.1 == k then (k, v) else e)
  else fs ++ [(k, v)]

mutual

/-- The `deepmerge` library with the custom `arrayMerge` above. -/
def deepmergeJ (p : ArrayMergePolicy) (t s : JVal) : JVal :=
  match t, s with
  | .arr ta, .arr sa => .arr (customArrayMerge p ta sa)
  | .num _, .arr sa => .arr sa
  | .obj _, .arr sa => .arr sa
  | .arr _, .num n => .num n
  | .obj tf, .num _ => .obj tf
  | .num _, .num _ => .obj []
  | .obj tf, .obj sf => .obj (mergeEntriesJ p tf tf sf)
  | .arr _, .obj sf => .obj sf
  | .num _, .obj sf => .obj sf
termination_by sizeOf s

/-- Model of `mergeObject`: assign the source entries one by one into the
destination (initially a copy of the target), recursing on a source value
that is mergeable and whose key exists on the target. -/
def mergeEntriesJ (p : ArrayMergePolicy) (tf dest sf : List (String × JVal)) :
    List (String × JVal) :=
  match sf with
  | [] => dest
  | (k, sv) :: rest =>
      let v := if mergeableJ sv then
          match lookupJ tf k with
          | some tv => deepmergeJ p tv sv
          | none => sv
        else sv
      mergeEntriesJ p tf (setKeyJ dest k v) rest
termination_by sizeOf sf

end

/-- Model of `deepMergeState(current, upd, options)` (base.ts 27-52) on a
non-function update. -/
def deepMergeStateJ (arrayMerge : ArrayMergePolicy) (current upd : List (String × JVal)) : JVal :=
  deepmergeJ arrayMerge (.obj current) (.obj upd)

def objFieldsOf : JVal → List (String × JVal)
  | .obj fs => fs
  | _ => []

theorem lookupJ_map_replace (fs : List (String × JVal)) (k : String) (v : JVal) :
    lookupJ (fs.map (fun e => if e.1 == k then (k, v) else e)) k
      = if fs.any (fun e => e.1 == k) then some v else none := by
  induction fs with
  | nil => rfl
  | cons e rest ih =>
      by_cases he : (e.1 == k) = true
      · rw [List.map_cons, if_pos he]
        unfold lookupJ
        rw [List.find?_cons_of_pos _ (by simp), List.any_cons]
        simp [he]
      · have he2 : (e.1 == k) = false := by simpa using he
        rw [List.map_cons, if_neg he]
        unfold lookupJ
        rw [List.find?_cons_of_neg _ (by simp [he2]), List.any_cons]
        simp only [he2, Bool.false_or]
        exact ih

theorem lookupJ_map_replace_ne (fs : List (String × JVal)) (k0 k : String) (v : JVal)
    (hne : k0 ≠ k) :
    lookupJ (fs.map (fun e => if e.1 == k0 then (k0, v) else e)) k = lookupJ fs k := by
  induction fs with
  | nil => rfl
  | cons e rest ih =>
      by_cases he : (e.1 == k0) = true
      · have hek : e.1 = k0 := by simpa using he
        have h2 : (e.1 == k) = false := by simp [hek, hne]
        rw [List.map_cons, if_pos he]
        unfold lookupJ
        rw [List.find?_cons_of_neg _ (by simp [hne]), List.find?_cons_of_neg _ (by simp [h2])]
        exact ih
      · rw [List.map_cons, if_neg he]
        by_cases hk : (e.1 == k) = true
        · unfold lookupJ
          rw [List.find?_cons_of_pos (p := fun (e : String × JVal) => e.1 == k) _ hk,
            List.find?_cons_of_pos (p := fun (e : String × JVal) => e.1 == k) _ hk]
        · have hk2 : (e.1 == k) = false := by simpa using hk
          unfold lookupJ
          rw [List.find?_cons_of_neg _ (by simp [hk2]), List.find?_cons_of_neg _ (by simp [hk2])]
          exact ih

theorem lookupJ_setKeyJ_self (fs : List (String × JVal)) (k : String) (v : JVal) :
    lookupJ (setKeyJ fs k v) k = some v := by
  unfold setKeyJ
  split
  case isTrue h => rw [lookupJ_map_replace, if_pos h]
  case isFalse h =>
      have hnone : fs.find? (fun e => e.1 == k) = none := by
        rw [List.find?_eq_none]
        intro x hx hp
        exact h (List.any_eq_true.2 ⟨x, hx, hp⟩)
      unfold lookupJ
      rw [List.find?_append, hnone]
      rw [List.find?_cons_of_pos _ (by simp)]
      rfl

theorem lookupJ_setKeyJ_of_ne (fs : List (String × JVal)) (k0 k : String) (v : JVal)
    (hne : k0 ≠ k) :
    lookupJ (setKeyJ fs k0 v) k = lookupJ fs k := by
  unfold setKeyJ
  split
  case isTrue h => exact lookupJ_map_replace_ne fs k0 k v hne
  case isFalse h =>
      unfold lookupJ
      rw [List.find?_append]
      rw [List.find?_cons_of_neg _ (by simp [hne])]
      cases fs.find? (fun e => e.1 == k) <;> rfl

theorem lookupJ_mem (fs : List (String × JVal)) (k : String) (v : JVal)
    (h : lookupJ fs k = some v) : (k, v) ∈ fs := by
  unfold lookupJ at h
  cases hf : fs.find? (fun e => e.1 == k) with
  | none => rw [hf] at h; cases h
  | some e =>
      rw [hf] at h
      obtain ⟨k0, v0⟩ := e
      have hk : k0 = k := by simpa using List.find?_some hf
      have hv : v0 = v := by simpa using h
      have := List.mem_of_find?_eq_some hf
      rw [← hk, ← hv]
      exact this

theorem mergeEntriesJ_lookup_of_absent (p : ArrayMergePolicy)
    (tf : List (String × JVal)) (k : String) :
    ∀ (sf dest : List (String × JVal)), (∀ e ∈ sf, e.1 ≠ k) →
      lookupJ (mergeEntriesJ p tf dest sf) k = lookupJ dest k := by
  intro sf
  induction sf with
  | nil =>
      intro dest _
      simp [mergeEntriesJ]
  | cons e rest ih =>
      intro dest hk
      obtain ⟨k0, sv0⟩ := e
      have hk0 : k0 ≠ k := hk (k0, sv0) (List.mem_cons_self _ _)
      simp only [mergeEntriesJ]
      rw [ih _ (fun x hx => hk x (List.mem_cons_of_mem _ hx))]
      exact lookupJ_setKeyJ_of_ne _ k0 k _ hk0

theorem mergeEntriesJ_lookup_of_mem (p : ArrayMergePolicy)
    (tf : List (String × JVal)) (k : String) :
    ∀ (sf dest : List (String × JVal)) (sv : JVal),
      (sf.map Prod.fst).Nodup → (k, sv) ∈ sf →
      lookupJ (mergeEntriesJ p tf dest sf) k
        = some (if mergeableJ sv then
                  match lookupJ tf k with
                  | some tv => deepmergeJ p tv sv
                  | none => sv
                else sv) := by
  intro sf
  induction sf with
  | nil =>
      intro dest sv _ hmem
      cases hmem
  | cons e rest ih =>
      intro dest sv hnd hmem
      obtain ⟨k0, sv0⟩ := e
      simp only [List.map_cons, List.nodup_cons] at hnd
      rcases List.mem_cons.1 hmem with heq | hmem2
      · have hp : k = k0 ∧ sv = sv0 := by
          rw [Prod.mk.injEq] at heq
          exact heq
        obtain ⟨hk, hv⟩ := hp
        subst hk
        subst hv
        simp only [mergeEntriesJ]
        rw [mergeEntriesJ_lookup_of_absent p tf k rest _ ?_]
        · exact lookupJ_setKeyJ_self _ k _
        · intro x hx hxk
          exact hnd.1 (hxk ▸ List.mem_map_of_mem Prod.fst hx)
      · simp only [mergeEntriesJ]
        exact ih _ sv hnd.2 hmem2

/-- Concrete destination and source of the testable property: the states
items = the array of 1 and 2, and items = the array of 3. -/
def demoItemsDest : List (String × JVal) := [("items", .arr [.num 1, .num 2])]

def demoItemsSrc : List (String × JVal) := [("items", .arr [.num 3])]

/-- C5: whenever a key holds an array in both states (source keys being
unique, as JavaScript object keys are), `deepMergeState` under `concat`
yields the destination elements followed by the source elements; under
`replace` the source array wins wholesale; and the default `merge-by-index`
has exactly the behaviour of `replace`. -/
theorem deepMergeState_arrayMerge_policy
    (tf sf : List (String × JVal)) (k : String) (ta sa : List JVal)
    (hnd : (sf.map Prod.fst).Nodup)
    (ht : lookupJ tf k = some (.arr ta)) (hs : lookupJ sf k = some (.arr sa)) :
    lookupJ (objFieldsOf (deepMergeStateJ .concat tf sf)) k = some (.arr (ta ++ sa)) ∧
    lookupJ (objFieldsOf (deepMergeStateJ .replace tf sf)) k = some (.arr sa) ∧
    lookupJ (objFieldsOf (deepMergeStateJ .mergeByIndex tf sf)) k = some (.arr sa) ∧
    (∀ d s2 : List JVal, customArrayMerge .mergeByIndex d s2 = customArrayMerge .replace d s2) := by
  have hmem : (k, JVal.arr sa) ∈ sf := lookupJ_mem sf k _ hs
  have key : ∀ p : ArrayMergePolicy,
      lookupJ (objFieldsOf (deepMergeStateJ p tf sf)) k = some (.arr (customArrayMerge p ta sa)) := by
    intro p
    have h1 : deepMergeStateJ p tf sf = .obj (mergeEntriesJ p tf tf sf) := by
      simp [deepMergeStateJ, deepmergeJ]
    rw [h1]
    show lookupJ (mergeEntriesJ p tf tf sf) k = _
    rw [mergeEntriesJ_lookup_of_mem p tf k sf tf _ hnd hmem]
    simp [mergeableJ, ht, deepmergeJ]
  exact ⟨by simpa [customArrayMerge] using key .concat,
         by simpa [customArrayMerge] using key .replace,
         by simpa [customArrayMerge] using key .mergeByIndex,
         fun d s2 => rfl⟩

/-- C5 witness: merging items = the array of 1 and 2 with items = the array
of 3 yields 1, 2, 3 under concat and just 3 under replace and under the
default merge-by-index. -/
theorem deepMergeState_arrayMerge_policy_witness :
    lookupJ (objFieldsOf (deepMergeStateJ .concat demoItemsDest demoItemsSrc)) "items"
      = some (.arr [.num 1, .num 2, .num 3]) ∧
    lookupJ (objFieldsOf (deepMergeStateJ .replace demoItemsDest demoItemsSrc)) "items"
      = some (.arr [.num 3]) ∧
    lookupJ (objFieldsOf (deepMergeStateJ .mergeByIndex demoItemsDest demoItemsSrc)) "items"
      = some (.arr [.num 3]) := by
  have h := deepMergeState_arrayMerge_policy demoItemsDest demoItemsSrc "items"
    [.num 1, .num 2] [.num 3] (by decide) rfl rfl
  exact ⟨h.1, h.2.1, h.2.2.1⟩

end NextBlogStore
